import Mathlib

/-!
Verification development for the SCT_Fusion_Query repository.

Shallow embedding of the components referenced by the frozen claims:

* `src/RAG_Implementation/embed_chunks.py` — the checkpointed embedding
  builder (`main`, `save_checkpoint`, `load_checkpoint`).
* `src/RAG_Implementation/intent_classifier.py` — `is_binning_question`.
* `src/System_KG_Implementation/SCT_fusion_query.py` — `compress_sct`,
  `fused_reasoning`, the module-level FAISS index build.
* `src/System_KG_Implementation/build_faiss_index.py` — the index build
  script.
* `src/GPT_PromptSet/gpt_client.py` — `GPTClient.ask`,
  `GPTClient._setup_gpt4ifx_client`.
* `src/SCT_UI/app.py` — the numbered-line follow-up parser in
  `get_response`.

Python strings are embedded as `List Char`; the Python string methods the
sources use (`str.split`, `str.strip`, `str.lower`, `in`, `startswith`,
`str.join`) are defined below, faithful to CPython semantics for the
character data that occurs in this code base (lowercasing is per-character,
which agrees with `str.lower` on ASCII input).
-/

set_option maxRecDepth 8192

namespace SctFusion

/-- Python string as a list of characters. -/
abbrev PyStr := List Char

/-- `tokenAt n l` decides whether `n` is a leading segment of `l`
(the semantics of Python `l.startswith(n)` at the current position). -/
def tokenAt : PyStr → PyStr → Bool
  | [], _ => true
  | _ :: _, [] => false
  | a :: as, b :: bs => a == b && tokenAt as bs

/-- `containsSub n l` decides Python `n in l`: `n` occurs in `l` as a
contiguous substring. -/
def containsSub (needle : PyStr) : PyStr → Bool
  | [] => needle.isEmpty
  | c :: rest => tokenAt needle (c :: rest) || containsSub needle rest

/-- Python `str.strip()`: remove leading and trailing whitespace. -/
def pyStrip (l : PyStr) : PyStr :=
  ((l.dropWhile Char.isWhitespace).reverse.dropWhile Char.isWhitespace).reverse

/-- Python `str.split()` with no argument: split on runs of whitespace,
discarding empty pieces. -/
def pySplit : PyStr → List PyStr
  | [] => []
  | c :: rest =>
    if c.isWhitespace then pySplit rest
    else (c :: rest.takeWhile (fun d => !d.isWhitespace)) ::
      pySplit (rest.dropWhile (fun d => !d.isWhitespace))
termination_by l => l.length
decreasing_by
  · simp only [List.length_cons]; omega
  · have h := (List.dropWhile_suffix (l := rest) (fun d => !d.isWhitespace)).length_le
    simp only [List.length_cons]; omega

/-- Python `" ".join(ws)`. -/
def joinSpace : List PyStr → PyStr
  | [] => []
  | [w] => w
  | w :: x :: ws => w ++ ' ' :: joinSpace (x :: ws)

/-- Python `"\n".join(ws)`. -/
def joinNl : List PyStr → PyStr
  | [] => []
  | [w] => w
  | w :: x :: ws => w ++ '\n' :: joinNl (x :: ws)

/-- Python `text.split('\n')`: split on every newline, keeping empty
pieces. -/
def splitNl : PyStr → List PyStr
  | [] => [[]]
  | c :: rest =>
    if c = '\n' then [] :: splitNl rest
    else
      match splitNl rest with
      | [] => [[c]]
      | w :: ws => (c :: w) :: ws

/-- Whether the character `ch` occurs in `l` (Python `ch in l`). -/
def hasChar (ch : Char) : PyStr → Bool
  | [] => false
  | c :: rest => c == ch || hasChar ch rest

/-- Python `l.split(ch, 1)[-1]`: everything after the first occurrence of
`ch`, or the whole string when `ch` does not occur. -/
def pySplit1Last (ch : Char) (l : PyStr) : PyStr :=
  if hasChar ch l then (l.dropWhile fun c => c != ch).tail else l

/-- Python `context.split(" | ")` as used by `compress_sct`
(SCT_fusion_query.py line 167): split on the exact three-character
separator, keeping empty pieces, scanning left to right. -/
def splitBar : PyStr → List PyStr
  | ' ' :: '|' :: ' ' :: rest => [] :: splitBar rest
  | c :: rest =>
    match splitBar rest with
    | [] => [[c]]
    | w :: ws => (c :: w) :: ws
  | [] => [[]]

/-- Per-character lowercasing, the behavior of Python `str.lower()` on
ASCII input (intent_classifier.py line 57). -/
def lowerStr (l : PyStr) : PyStr := l.map Char.toLower

/-!
## Checkpointed Embedding Builder — `src/RAG_Implementation/embed_chunks.py`

The embedding loop of `main` (lines 212–260) calls the remote embedding
service through `embed_text` inside a `try` block.  For one chunk, the
externally observable behaviors of that block are:

* the first `embed_text` call succeeds and returns a vector
  (line 227);
* the first call raises `openai.BadRequestError`, `refresh_client()` is
  called, and the single retry succeeds (lines 230–242);
* the first call raises `openai.BadRequestError`, `refresh_client()` is
  called, and the single retry also fails (lines 243–246);
* the first call raises some other exception (lines 248–252).

`EmbedOutcome` enumerates these four behaviors of the external service for
one chunk; the vector type is a parameter.
-/

/-- Behavior of the external embedding service on one chunk. -/
inductive EmbedOutcome (V : Type) where
  | ok (v : V)
  | badRequestThenOk (v : V)
  | badRequestThenFail
  | otherError
deriving DecidableEq, Repr

/-- Vector appended to `vectors` for one processed chunk, per the four
branches of the `try`/`except` block (embed_chunks.py lines 225–252);
`zero` is `np.zeros(4096)`. -/
def chunkVector {V : Type} (zero : V) : EmbedOutcome V → V
  | .ok v => v
  | .badRequestThenOk v => v
  | .badRequestThenFail => zero
  | .otherError => zero

/-- Number of `embed_text` calls issued for one processed chunk. -/
def attemptsOf {V : Type} : EmbedOutcome V → Nat
  | .ok _ => 1
  | .badRequestThenOk _ => 2
  | .badRequestThenFail => 2
  | .otherError => 1

/-- Number of failure-triggered `refresh_client()` calls for one processed
chunk (the `except openai.BadRequestError` branch, line 236; the periodic
every-500 refresh of line 223 is not failure-triggered). -/
def retryRefreshesOf {V : Type} : EmbedOutcome V → Nat
  | .ok _ => 0
  | .badRequestThenOk _ => 1
  | .badRequestThenFail => 1
  | .otherError => 0

/-- Whether the first embedding request for the chunk failed. -/
def isFailedOutcome {V : Type} : EmbedOutcome V → Bool
  | .ok _ => false
  | .badRequestThenOk _ => true
  | .badRequestThenFail => true
  | .otherError => true

/-- State threaded through the embedding loop of `main`:
the accumulated `vectors` list, the `(last_index, vectors_count)` records
written by `save_checkpoint` (embed_chunks.py lines 122–137), and the list
of chunk indices for which `embed_text` was invoked. -/
structure BuilderState (V : Type) where
  vectors : List V
  checkpoints : List (Int × Nat)
  processed : List Nat
deriving DecidableEq, Repr

/-- One non-skipped iteration of the embedding loop at index `i`
(embed_chunks.py lines 217–257): exactly one vector is appended, and a
checkpoint `{last_index: i, vectors_count: len(vectors)}` is persisted when
`(i + 1) % 10 == 0` (lines 254–256). -/
def process_chunk {V : Type} (zero : V) (st : BuilderState V) (i : Nat)
    (o : EmbedOutcome V) : BuilderState V :=
  let vectors := st.vectors ++ [chunkVector zero o]
  { vectors := vectors
    checkpoints :=
      if (i + 1) % 10 == 0 then st.checkpoints ++ [((i : Int), vectors.length)]
      else st.checkpoints
    processed := st.processed ++ [i] }

/-- The loop `for i, d in enumerate(docs)` of `main` (lines 212–260),
starting the enumeration at index `k`: indices with `i <= start_index` are
skipped (lines 214–215), all others are processed. -/
def buildAux {V : Type} (zero : V) (start : Int) :
    Nat → List (EmbedOutcome V) → BuilderState V → BuilderState V
  | _, [], st => st
  | i, o :: rest, st =>
    if (i : Int) ≤ start then buildAux zero start (i + 1) rest st
    else buildAux zero start (i + 1) rest (process_chunk zero st i o)

/-- The embedding loop over the whole chunk list, started from the state
`(start_index, vectors)` produced by `load_checkpoint`
(embed_chunks.py lines 143–167 and 185–215). -/
def buildLoop {V : Type} (zero : V) (start : Int) (init : List V)
    (docs : List (EmbedOutcome V)) : BuilderState V :=
  buildAux zero start 0 docs { vectors := init, checkpoints := [], processed := [] }

/-- Embedding vectors in the model: rational-valued, so that equality is
decidable (the float values themselves are irrelevant to the claims). -/
abbrev Vec := List ℚ

/-- `np.zeros(4096, dtype="float32")` (embed_chunks.py lines 246 and 252). -/
def zeroVec : Vec := List.replicate 4096 0

/-- `main` of embed_chunks.py as far as the claims need it: after loading
the checkpoint and the chunk list, it returns early when no chunks were
loaded (lines 199–201) and otherwise runs the embedding loop. -/
def embedMain (start : Int) (init : List Vec)
    (docs : List (EmbedOutcome Vec)) : Option (BuilderState Vec) :=
  if docs.isEmpty then none
  else some (buildLoop zeroVec start init docs)

/-!
## Intent Classifier — `src/RAG_Implementation/intent_classifier.py`
-/

/-- The `strong` keyword list of `is_binning_question`
(intent_classifier.py lines 61–68). -/
def strongKeywords : List PyStr :=
  ["binning", "bin yield", "test bin", "binning yield", "product bin",
   "bin distribution"].map String.data

/-- Word characters of the regex class `\w` over ASCII input. -/
def isWordChar (c : Char) : Bool := c.isAlphanum || c == '_'

/-- The four token spellings matched by the regex
`\bbin(?:s|ned|ning)?\b` (intent_classifier.py line 77). -/
def binTokens : List PyStr := ["bin", "bins", "binned", "binning"].map String.data

/-- Whether one of `binTokens` starts at the head of `l` with a word
boundary immediately after it (every token ends in a word character, so
the trailing `\b` holds exactly when the next character is absent or is a
non-word character). -/
def binTokenHere (l : PyStr) : Bool :=
  binTokens.any fun t =>
    tokenAt t l &&
      match l.drop t.length with
      | [] => true
      | c :: _ => !isWordChar c

/-- Scan for `re.search(r"\bbin(?:s|ned|ning)?\b", q)`: `prevWord` records
whether the character before the current position is a word character
(every token starts with the word character `b`, so the leading `\b`
holds exactly when `prevWord` is false). -/
def hasBinTokenAux : Bool → PyStr → Bool
  | _, [] => false
  | prevWord, c :: rest =>
    (!prevWord && binTokenHere (c :: rest)) || hasBinTokenAux (isWordChar c) rest

/-- Whether the regex `\bbin(?:s|ned|ning)?\b` matches somewhere in `q`. -/
def hasBinToken (q : PyStr) : Bool := hasBinTokenAux false q

/-- `is_binning_question` (intent_classifier.py lines 30–83): lowercase
the question, return `True` on any `strong` keyword substring match, else
return the word-boundary regex search result. -/
def is_binning_question (question : PyStr) : Bool :=
  let q := lowerStr question
  if strongKeywords.any fun w => containsSub w q then true
  else if hasBinToken q then true
  else false

/-!
## Context Fusion Engine — `src/System_KG_Implementation/SCT_fusion_query.py`
-/

/-- A retrieved primary (SCT) result as consumed by `compress_sct`:
`label` and `context` fields (SCT_fusion_query.py lines 147–150). -/
structure SctResult where
  label : PyStr
  context : PyStr
deriving DecidableEq, Repr

/-- The redundant relation pattern `"subClassOf"` filtered out by
`compress_sct` (SCT_fusion_query.py line 167). -/
def subClassOfStr : PyStr := "subClassOf".data

/-- The fragments `compress_sct` keeps for one retrieved result
(line 167): split the context on `" | "`, drop fragments containing
`"subClassOf"`, keep at most the first 10. -/
def keptParts (r : SctResult) : List PyStr :=
  ((splitBar r.context).filter fun p => !containsSub subClassOfStr p).take 10

/-- Python `" | ".join(parts)` (SCT_fusion_query.py line 169). -/
def joinBarSep : List PyStr → PyStr
  | [] => []
  | [w] => w
  | w :: x :: ws => w ++ ' ' :: '|' :: ' ' :: joinBarSep (x :: ws)

/-- The labeled entry `compress_sct` builds for one result (line 169):
the label in square brackets, a newline, then the joined kept fragments. -/
def sctEntry (r : SctResult) : PyStr :=
  '[' :: (r.label ++ ']' :: '\n' :: joinBarSep (keptParts r))

/-- Python `"\n\n".join(merged)` (SCT_fusion_query.py line 171). -/
def joinBlank : List PyStr → PyStr
  | [] => []
  | [w] => w
  | w :: x :: ws => w ++ '\n' :: '\n' :: joinBlank (x :: ws)

/-- `compress_sct` (SCT_fusion_query.py lines 152–172). -/
def compress_sct (retrieved : List SctResult) (max_chars : Nat) : PyStr :=
  (joinBlank (retrieved.map sctEntry)).take max_chars

/-- The `RULES` preamble constant (SCT_fusion_query.py lines 178–196); the
triple-quoted Python literal starts and ends with a newline. -/
def RULES : PyStr :=
  ("\nYou are an Infineon semiconductor domain assistant.\n\nGeneral expectations:\n1. Start with a direct, one-sentence definition or conclusion that answers the question.\n2. Structure every answer as: Definition → Short Explanation → Optional Supporting Detail.\n3. Keep total length within ~200 words (≈3–6 sentences).\n4. Provide clear cause–effect or process reasoning rather than listing entities.\n5. Use precise semiconductor terminology (wafer, lithography, GOX, linewidth, binning, yield).\n6. Mention formulas or standards (Cp, Cpk, ISO, SPC) only if relevant and factual.\n7. Keep discussion tied to semiconductor manufacturing, yield, or process control.\n8. Write in clear, professional technical language; use short paragraphs or bullet points when needed.\n9. Maintain a neutral, factual tone—no speculation or narrative phrasing.\n10. Add an “Additional Notes:” section only if genuinely valuable (e.g., limitation, brief example).\n\nAlways combine your own engineering knowledge with the Digital Reference context to produce clear, concise, and technically sound answers.\n\nIf binning applies, integrate RAG engineering text directly.\n").data

/-- The secondary-context heading literal of the fusion prompt
(SCT_fusion_query.py line 241). -/
def ragHeading : PyStr := "Relevant Binning Research (RAG):".data

/-- `rag_text` as computed by `fused_reasoning` (lines 228–231): empty for
a non-binning question, otherwise the bullet-joined texts of the retrieved
chunks. -/
def ragTextFor (question : PyStr) (chunkTexts : List PyStr) : PyStr :=
  if is_binning_question question then
    joinNl (chunkTexts.map fun c => '-' :: ' ' :: c)
  else []

/-- Skeleton of the fusion prompt f-string before `sct_text`
(SCT_fusion_query.py lines 235–246). -/
def promptPartA : PyStr := '\n' :: (RULES ++ "\n\nDigital Reference Context:\n".data)

/-- Skeleton between `sct_text` and the optional RAG block. -/
def promptPartB : PyStr := "\n\n".data

/-- Skeleton between the optional RAG block and the question. -/
def promptPartC : PyStr := "\n\nQuestion: ".data

/-- Skeleton after the question. -/
def promptPartD : PyStr :=
  "\n\nProvide a clear, technically correct, concise answer.\n".data

/-- The prompt assembled by `fused_reasoning` (lines 235–246): the RAG
block `"Relevant Binning Research (RAG):\n" + rag_text` is interpolated
only when `rag_text` is non-empty. -/
def fusedPrompt (sct_text question : PyStr) (chunkTexts : List PyStr) : PyStr :=
  let rag_text := ragTextFor question chunkTexts
  promptPartA ++ sct_text ++ promptPartB ++
    (if rag_text.isEmpty then [] else ragHeading ++ '\n' :: rag_text) ++
    promptPartC ++ question ++ promptPartD

/-!
## Vector Index build sites (claim C5)

* `SCT_fusion_query.py` lines 98–116: module-level build from
  `semantic_conditions.jsonl`.  With zero entries the lists stay empty and
  `np.vstack(vectors)` raises
  `ValueError: need at least one array to concatenate` before
  `faiss.IndexFlatIP` is ever constructed; the uncaught exception aborts
  the module load.  Fallible code is embedded as `Except`.
* `build_faiss_index.py` lines 95–106: `raise SystemExit` when no
  embeddings were generated, before the index is built.
* `embed_chunks.py` lines 199–201: early `return` when no chunks were
  loaded, before any embedding or index construction.

`faiss.normalize_L2` rescales rows in place and does not change the number
of rows or the dimension; the claims never inspect the numeric values, so
the model stores the rows as given.
-/

/-- A built FAISS index: its dimension and the stored rows. -/
structure FaissIndex where
  dim : Nat
  rows : List Vec
deriving DecidableEq, Repr

/-- One line of `semantic_conditions.jsonl` (SCT_fusion_query.py
lines 100–106). -/
structure SemEntry where
  label : PyStr
  context_text : PyStr
  embedding : Vec
deriving DecidableEq, Repr

/-- The module-level index build of SCT_fusion_query.py (lines 98–116):
collect labels, contexts and vectors, then `np.vstack` and index them.
On zero entries `np.vstack([])` raises. -/
def buildSctIndex (entries : List SemEntry) :
    Except PyStr (FaissIndex × List PyStr × List PyStr) :=
  match entries with
  | [] => .error "need at least one array to concatenate".data
  | e :: _ =>
    .ok ({ dim := e.embedding.length, rows := entries.map (·.embedding) },
         entries.map (·.label), entries.map (·.context_text))

/-- The build-and-save step of build_faiss_index.py (lines 95–106):
`raise SystemExit("[ERROR] No embeddings generated. ...")` when the
vector list is empty, otherwise build the index over the stacked matrix. -/
def buildDrIndex (vectors : List Vec) (ids : List PyStr) :
    Except PyStr (FaissIndex × List PyStr) :=
  match vectors with
  | [] => .error "[ERROR] No embeddings generated. Check credentials or network/VPN.".data
  | v :: _ => .ok ({ dim := v.length, rows := vectors }, ids)

/-!
## Answer Orchestrator — `src/GPT_PromptSet/gpt_client.py`
-/

/-- A chat message `{"role": ..., "content": ...}`. -/
structure Msg where
  role : PyStr
  content : PyStr
deriving DecidableEq, Repr

/-- Behavior of one `chat.completions.create` call: the response text, or
the exception message. -/
abbrev GenResult := Except PyStr PyStr

/-- Decimal rendering of a number, for the interpolations
`f"... has {word_count} words."` and `f"API Error after {max_retries}
attempts: ..."`. -/
def natChars (n : Nat) : PyStr := (toString n).data

/-- The conversational-retry user message appended by `ask`
(gpt_client.py lines 256–259). -/
def retryInstruction (word_count : Nat) : PyStr :=
  "Please provide a shorter response (under 200 words). Current response has ".data
    ++ natChars word_count ++ " words.".data

/-- The loop body of `GPTClient.ask` (gpt_client.py lines 234–274):
`fuel` counts the remaining iterations of
`for attempt in range(1, max_retries + 1)` and `attempt` is the current
attempt number.  `gen` is the generation service applied to the running
message history. -/
def askAux (gen : List Msg → GenResult) (max_retries : Nat) :
    Nat → Nat → List Msg → PyStr
  | 0, _, _ => "No response received from GPT. Please check connection or credentials.".data
  | fuel + 1, attempt, messages =>
    match gen messages with
    | .ok raw =>
      let text := pyStrip raw
      let word_count := (pySplit text).length
      if word_count > 200 then
        if attempt < max_retries then
          askAux gen max_retries fuel (attempt + 1)
            (messages ++ [{ role := "assistant".data, content := text },
                          { role := "user".data, content := retryInstruction word_count }])
        else joinSpace ((pySplit text).take 200) ++ "...".data
      else text
    | .error e =>
      if attempt ≥ max_retries then
        "API Error after ".data ++ natChars max_retries ++ " attempts: ".data
          ++ e.take 100 ++ "...".data
      else askAux gen max_retries fuel (attempt + 1) messages

/-- `GPTClient.ask(query, max_retries)` (gpt_client.py lines 199–277):
initial message history is the system rules followed by the user query. -/
def ask (gen : List Msg → GenResult) (rules query : PyStr)
    (max_retries : Nat) : PyStr :=
  askAux gen max_retries max_retries 1
    [{ role := "system".data, content := rules },
     { role := "user".data, content := query }]

/-!
## `GPTClient._setup_gpt4ifx_client` — gpt_client.py lines 135–197
-/

/-- Outcome of the authentication request `requests.get(.../auth/token)`:
either a response (status code plus the optional
`x-forwarded-access-token` header) or a raised network exception. -/
inductive AuthResult where
  | response (status : Nat) (token : Option PyStr)
  | netError (msg : PyStr)
deriving DecidableEq, Repr

/-- The client object stored in `self.client`. -/
inductive ClientKind where
  | gpt4ifx (token : PyStr)
  | fallbackOpenAI
deriving DecidableEq, Repr

/-- The `try` block of `_setup_gpt4ifx_client` (lines 165–191): on a 200
response carrying a token it installs the GPT4IFX client and returns;
otherwise it raises `Exception(f"Authentication failed with status
{resp.status_code}")`; a raised network error propagates. -/
def setupTry (r : AuthResult) : Except PyStr ClientKind :=
  match r with
  | .netError m => .error m
  | .response status token =>
    if status == 200 then
      match token with
      | some t => .ok (.gpt4ifx t)
      | none => .error ("Authentication failed with status ".data ++ natChars status)
    else .error ("Authentication failed with status ".data ++ natChars status)

/-- `_setup_gpt4ifx_client` (lines 135–197): the `except` clause catches
every failure of the `try` block and installs a default `OpenAI()` client
instead, so the method always produces a client and never raises. -/
def setup_gpt4ifx_client (r : AuthResult) : ClientKind :=
  match setupTry r with
  | .ok c => c
  | .error _ => .fallbackOpenAI

/-- Whether the authentication attempt failed (non-200 status, missing
token header, or network exception). -/
def authFailed : AuthResult → Bool
  | .netError _ => true
  | .response status token => !(status == 200 && token.isSome)

/-- `GPTClient.__init__` (lines 107–133) after the rules file was read:
it stores the configuration and unconditionally installs the client
computed by `_setup_gpt4ifx_client`. -/
structure GPTClientState where
  rules : PyStr
  client : ClientKind
deriving DecidableEq, Repr

/-- Construction of a `GPTClient` given the loaded rules and the observed
authentication outcome; total, hence construction never raises on
authentication failure. -/
def mkGPTClient (rules : PyStr) (r : AuthResult) : GPTClientState :=
  { rules := rules, client := setup_gpt4ifx_client r }

/-!
## Follow-up parser — `src/SCT_UI/app.py` lines 99–109
-/

/-- The numbering test of app.py line 104:
`any(line.startswith(f"{i}.") or line.startswith(f"{i})") for i in
range(1, 10))`. -/
def isNumberedLine (line : PyStr) : Bool :=
  (List.range' 1 9).any fun i =>
    tokenAt [Nat.digitChar i, '.'] line || tokenAt [Nat.digitChar i, ')'] line

/-- The loop of app.py lines 100–108: split the response into lines,
strip each, keep non-empty numbered lines, extract the item via
`line.split('.', 1)[-1].split(')', 1)[-1].strip()`, and append it when
non-empty. -/
def parseFollowups (followup_text : PyStr) : List PyStr :=
  (splitNl followup_text).filterMap fun rawLine =>
    let line := pyStrip rawLine
    if !line.isEmpty && isNumberedLine line then
      let question := pyStrip (pySplit1Last ')' (pySplit1Last '.' line))
      if !question.isEmpty then some question else none
    else none

/-!
## Theorems
-/

/-- Claim C3 counterexample: it is not the case that every chunk whose
embedding request fails is retried (with a session refresh) exactly once
before falling back.  A chunk whose `embed_text` call raises an exception
other than `openai.BadRequestError` (the `except Exception` branch,
embed_chunks.py lines 248–252) receives the zero placeholder immediately:
one single request, no refresh, no retry. -/
theorem claim_C3_cex :
    ¬ ∀ o : EmbedOutcome Vec, isFailedOutcome o = true →
        attemptsOf o = 2 ∧ retryRefreshesOf o = 1 := by
  intro h
  have hx := h EmbedOutcome.otherError rfl
  simp [attemptsOf] at hx

/-- Claim C3 (amended): only a chunk whose embedding request fails with
`openai.BadRequestError` gets a session refresh and exactly one retry
(two requests in total); a chunk failing with any other exception gets no
retry and no failure-triggered refresh (one request).  In both failure
modes the zero placeholder of dimension 4096 is appended, the single
successful request appends the returned vector, and every processed chunk
appends exactly one vector — a chunk is never silently skipped. -/
theorem claim_C3 :
    (∀ v : Vec, attemptsOf (EmbedOutcome.ok v) = 1 ∧
      retryRefreshesOf (EmbedOutcome.ok v) = 0 ∧
      chunkVector zeroVec (EmbedOutcome.ok v) = v) ∧
    (∀ v : Vec, attemptsOf (EmbedOutcome.badRequestThenOk v) = 2 ∧
      retryRefreshesOf (EmbedOutcome.badRequestThenOk v) = 1 ∧
      chunkVector zeroVec (EmbedOutcome.badRequestThenOk v) = v) ∧
    (attemptsOf (EmbedOutcome.badRequestThenFail : EmbedOutcome Vec) = 2 ∧
      retryRefreshesOf (EmbedOutcome.badRequestThenFail : EmbedOutcome Vec) = 1 ∧
      chunkVector zeroVec EmbedOutcome.badRequestThenFail = zeroVec) ∧
    (attemptsOf (EmbedOutcome.otherError : EmbedOutcome Vec) = 1 ∧
      retryRefreshesOf (EmbedOutcome.otherError : EmbedOutcome Vec) = 0 ∧
      chunkVector zeroVec EmbedOutcome.otherError = zeroVec) ∧
    zeroVec.length = 4096 ∧
    ∀ (st : BuilderState Vec) (i : Nat) (o : EmbedOutcome Vec),
      (process_chunk zeroVec st i o).vectors.length = st.vectors.length + 1 := by
  refine ⟨fun v => ⟨rfl, rfl, rfl⟩, fun v => ⟨rfl, rfl, rfl⟩,
    ⟨rfl, rfl, rfl⟩, ⟨rfl, rfl, rfl⟩, ?_, ?_⟩
  · unfold zeroVec
    exact List.length_replicate 4096 0
  · intro st i o
    simp [process_chunk]

/-- Claim C5: building a Vector Index from zero entries aborts before a
queryable index exists, at each of the three build sites: the module-level
build of SCT_fusion_query.py raises from `np.vstack([])`, the
build-and-save step of build_faiss_index.py raises `SystemExit`, and
`main` of embed_chunks.py returns before building anything when no chunks
were loaded. -/
theorem claim_C5 :
    buildSctIndex [] = Except.error "need at least one array to concatenate".data ∧
    (∀ ids : List PyStr, buildDrIndex [] ids =
      Except.error "[ERROR] No embeddings generated. Check credentials or network/VPN.".data) ∧
    ∀ (start : Int) (init : List Vec), embedMain start init [] = none := by
  exact ⟨rfl, fun ids => rfl, fun start init => rfl⟩

/-- Claim C8: `compress_sct` with the default budget 1200 returns at most
1200 characters (a hard character cut); for every retrieved result, at
most 10 fragments are kept, every kept fragment is free of the redundant
`subClassOf` pattern, and the result entry is its label in square
brackets followed by the kept fragments. -/
theorem claim_C8 (retrieved : List SctResult) :
    (compress_sct retrieved 1200).length ≤ 1200 ∧
    ∀ r ∈ retrieved,
      (keptParts r).length ≤ 10 ∧
      (∀ p ∈ keptParts r, containsSub subClassOfStr p = false) ∧
      sctEntry r = '[' :: (r.label ++ ']' :: '\n' :: joinBarSep (keptParts r)) := by
  refine ⟨List.length_take_le _ _, fun r _ => ⟨List.length_take_le _ _, ?_, rfl⟩⟩
  intro p hp
  have hmem := List.mem_of_mem_take hp
  have := List.of_mem_filter hmem
  simpa using this

/-- Claim C8 witness: the properties at a concrete retrieval result. -/
theorem claim_C8_witness :
    (compress_sct [⟨"L1".data, "a | subClassOf x | b".data⟩] 1200).length ≤ 1200 ∧
    (keptParts ⟨"L1".data, "a | subClassOf x | b".data⟩).length ≤ 10 ∧
    (∀ p ∈ keptParts ⟨"L1".data, "a | subClassOf x | b".data⟩,
      containsSub subClassOfStr p = false) ∧
    sctEntry ⟨"L1".data, "a | subClassOf x | b".data⟩ =
      '[' :: ("L1".data ++ ']' :: '\n' ::
        joinBarSep (keptParts ⟨"L1".data, "a | subClassOf x | b".data⟩)) := by
  have h := claim_C8 [⟨"L1".data, "a | subClassOf x | b".data⟩]
  exact ⟨h.1, h.2 _ (by simp)⟩

/-- Claim C10: if GPT4IFX authentication fails in any way (non-200
status, missing token header, or network exception), `GPTClient`
construction does not raise: `_setup_gpt4ifx_client` catches the failure
and silently installs a default `OpenAI()` client, so a `GPTClient` is
always created and later calls go against the fallback client.  On the
one success path (status 200 with a token header) the GPT4IFX client is
installed instead. -/
theorem claim_C10 (rules : PyStr) (r : AuthResult) :
    (authFailed r = true → setup_gpt4ifx_client r = ClientKind.fallbackOpenAI) ∧
    (authFailed r = false →
      ∃ t, r = AuthResult.response 200 (some t) ∧
        setup_gpt4ifx_client r = ClientKind.gpt4ifx t) ∧
    (mkGPTClient rules r).client = setup_gpt4ifx_client r := by
  refine ⟨?_, ?_, rfl⟩
  · intro h
    cases r with
    | netError m => rfl
    | response status token =>
      by_cases hs : (status == 200) = true
      · cases token with
        | some t => exact absurd h (by simp [authFailed, hs])
        | none => simp [setup_gpt4ifx_client, setupTry, hs]
      · rw [Bool.not_eq_true] at hs
        cases token <;> simp [setup_gpt4ifx_client, setupTry, hs]
  · intro h
    cases r with
    | netError m => simp [authFailed] at h
    | response status token =>
      have h2 : (status == 200 && token.isSome) = true := by
        cases hb : (status == 200 && token.isSome)
        · rw [authFailed, hb] at h; simp at h
        · rfl
      rw [Bool.and_eq_true, beq_iff_eq] at h2
      obtain ⟨hs, ht⟩ := h2
      cases token with
      | none => simp at ht
      | some t =>
        subst hs
        exact ⟨t, rfl, by simp [setup_gpt4ifx_client, setupTry]⟩

/-- Claim C10 witness: a concrete network failure during authentication
yields the fallback client. -/
theorem claim_C10_witness :
    setup_gpt4ifx_client (AuthResult.netError "connection refused".data) =
      ClientKind.fallbackOpenAI :=
  (claim_C10 "rules".data (AuthResult.netError "connection refused".data)).1 rfl

/-- Claim C6 counterexample: `is_binning_question` does not return `False`
on every query in which the bin-family terms occur only inside longer
words.  In `"What is the cabin yield?"` the base term occurs only inside
the unrelated word `cabin` and no word-boundary-delimited token of the
family is present (the regex fallback finds nothing), yet the substring
check on the strong phrase `"bin yield"` fires across the word boundary in
`cabin yield` and the classifier returns `True`. -/
theorem claim_C6_cex :
    ¬ ∀ q : PyStr, hasBinToken (lowerStr q) = false → is_binning_question q = false := by
  intro h
  exact absurd (h "What is the cabin yield?".data (by decide)) (by decide)

/-- Claim C6 (amended): for every query in which no strong domain phrase
occurs as a substring of the lowercased text and the base term and its
inflections never occur as word-boundary-delimited tokens, the classifier
returns `False`. -/
theorem claim_C6 (question : PyStr)
    (h1 : ∀ w ∈ strongKeywords, containsSub w (lowerStr question) = false)
    (h2 : hasBinToken (lowerStr question) = false) :
    is_binning_question question = false := by
  unfold is_binning_question
  have hany : (strongKeywords.any fun w => containsSub w (lowerStr question)) = false := by
    rw [Bool.eq_false_iff]
    intro hc
    obtain ⟨w, hw, hcw⟩ := List.any_eq_true.1 hc
    exact absurd hcw (by simp [h1 w hw])
  simp [hany, h2]

/-- Claim C6 witness: the spec example `"Combine the results"` contains
the base term only inside `Combine` and is classified `False`. -/
theorem claim_C6_witness :
    is_binning_question "Combine the results".data = false :=
  claim_C6 "Combine the results".data (by decide) (by decide)

/-!
Helper lemmas about the embedded Python string primitives.
-/

theorem dropWhile_head_false {p : Char → Bool} {c : Char} {rest : PyStr}
    (h : List.dropWhile p (c :: rest) = c :: rest) : p c = false := by
  by_contra hb
  rw [Bool.not_eq_false] at hb
  rw [List.dropWhile_cons, if_pos hb] at h
  have hle := (List.dropWhile_suffix (l := rest) p).sublist.length_le
  have hlen := congrArg List.length h
  simp only [List.length_cons] at hlen
  omega

theorem pyStrip_fixpoint_parts (t : PyStr) (h : pyStrip t = t) :
    t.dropWhile Char.isWhitespace = t ∧
    t.reverse.dropWhile Char.isWhitespace = t.reverse := by
  unfold pyStrip at h
  have h1 : t.dropWhile Char.isWhitespace = t := by
    have hs1 : t.dropWhile Char.isWhitespace <:+ t := List.dropWhile_suffix _
    have hs2 : (t.dropWhile Char.isWhitespace).reverse.dropWhile Char.isWhitespace <:+
        (t.dropWhile Char.isWhitespace).reverse := List.dropWhile_suffix _
    have hlen : t.length =
        ((t.dropWhile Char.isWhitespace).reverse.dropWhile Char.isWhitespace).length := by
      conv_lhs => rw [← h]
      rw [List.length_reverse]
    have hle1 := hs1.sublist.length_le
    have hle2 := hs2.sublist.length_le
    rw [List.length_reverse] at hle2
    exact hs1.sublist.eq_of_length (by omega)
  refine ⟨h1, ?_⟩
  rw [h1] at h
  have h2 := congrArg List.reverse h
  rwa [List.reverse_reverse] at h2

theorem pyStrip_space_cons (text : PyStr) (h : pyStrip text = text) :
    pyStrip (' ' :: text) = text := by
  obtain ⟨h1, h2⟩ := pyStrip_fixpoint_parts text h
  unfold pyStrip
  rw [List.dropWhile_cons, if_pos (by decide), h1, h2, List.reverse_reverse]

theorem pyStrip_numline (d delim : Char) (text : PyStr)
    (hd : d.isWhitespace = false) (h : pyStrip text = text) (hne : text ≠ []) :
    pyStrip (d :: delim :: ' ' :: text) = d :: delim :: ' ' :: text := by
  obtain ⟨h1, h2⟩ := pyStrip_fixpoint_parts text h
  obtain ⟨c, tr, hc⟩ : ∃ c tr, text.reverse = c :: tr := by
    cases hx : text.reverse with
    | nil =>
      exfalso
      apply hne
      have := congrArg List.reverse hx
      simpa using this
    | cons c tr => exact ⟨c, tr, rfl⟩
  have hcws : c.isWhitespace = false := by
    rw [hc] at h2
    exact dropWhile_head_false h2
  have hfix : (d :: delim :: ' ' :: text).reverse.dropWhile Char.isWhitespace =
      (d :: delim :: ' ' :: text).reverse := by
    have hrev : (d :: delim :: ' ' :: text).reverse = c :: (tr ++ [' ', delim, d]) := by
      have : (d :: delim :: ' ' :: text).reverse = text.reverse ++ [' ', delim, d] := by
        simp
      rw [this, hc, List.cons_append]
    rw [hrev, List.dropWhile_cons, if_neg (by simp [hcws]), ← hrev]
  unfold pyStrip
  rw [List.dropWhile_cons, if_neg (by simp [hd]), hfix, List.reverse_reverse]

theorem splitNl_single (l : PyStr) (h : '\n' ∉ l) : splitNl l = [l] := by
  induction l with
  | nil => rfl
  | cons c rest ih =>
    have hc : ¬ c = '\n' := fun he => h (he ▸ List.mem_cons_self c rest)
    have hr : '\n' ∉ rest := fun hm => h (List.mem_cons_of_mem c hm)
    simp only [splitNl, if_neg hc, ih hr]

theorem hasChar_iff (ch : Char) (l : PyStr) : hasChar ch l = true ↔ ch ∈ l := by
  induction l with
  | nil => simp [hasChar]
  | cons c rest ih =>
    simp only [hasChar, Bool.or_eq_true, beq_iff_eq, ih, List.mem_cons]
    exact or_congr_left (by exact ⟨fun he => he.symm, fun he => he.symm⟩)

theorem isNumberedLine_digit (n : Nat) (h1 : 1 ≤ n) (h2 : n ≤ 9) (delim : Char)
    (hd : delim = '.' ∨ delim = ')') (rest : PyStr) :
    isNumberedLine (Nat.digitChar n :: delim :: rest) = true := by
  apply List.any_eq_true.2
  refine ⟨n, ?_, ?_⟩
  · rw [List.mem_range']
    exact ⟨n - 1, by omega, by omega⟩
  · rw [Bool.or_eq_true]
    rcases hd with hd | hd <;> subst hd
    · exact Or.inl (by simp [tokenAt])
    · exact Or.inr (by simp [tokenAt])

theorem digitChar_facts (n : Nat) (h1 : 1 ≤ n) (h2 : n ≤ 9) :
    (Nat.digitChar n).isWhitespace = false ∧ Nat.digitChar n ≠ '\n' ∧
    Nat.digitChar n ≠ '.' ∧ Nat.digitChar n ≠ ')' := by
  interval_cases n <;> exact ⟨by decide, by decide, by decide, by decide⟩

theorem parse_numbered_line (d delim : Char) (text : PyStr)
    (hdws : d.isWhitespace = false) (hdnl : d ≠ '\n')
    (hdelim : delim = '.' ∨ delim = ')')
    (hnum : isNumberedLine (d :: delim :: ' ' :: text) = true)
    (hne : text ≠ []) (hstrip : pyStrip text = text) (hnl : '\n' ∉ text)
    (hsplit : pySplit1Last ')' (pySplit1Last '.' (d :: delim :: ' ' :: text)) = ' ' :: text) :
    parseFollowups (d :: delim :: ' ' :: text) = [text] := by
  have hnl_line : '\n' ∉ (d :: delim :: ' ' :: text) := by
    intro hm
    rcases List.mem_cons.1 hm with he | hm
    · exact hdnl he.symm
    rcases List.mem_cons.1 hm with he | hm
    · rcases hdelim with hd | hd <;> rw [hd] at he <;> exact absurd he.symm (by decide)
    rcases List.mem_cons.1 hm with he | hm
    · exact absurd he (by decide)
    · exact hnl hm
  have hsn : splitNl (d :: delim :: ' ' :: text) = [d :: delim :: ' ' :: text] :=
    splitNl_single _ hnl_line
  have hps : pyStrip (d :: delim :: ' ' :: text) = d :: delim :: ' ' :: text :=
    pyStrip_numline d delim text hdws hstrip hne
  have htne : text.isEmpty = false := by
    cases text with
    | nil => exact absurd rfl hne
    | cons a b => rfl
  unfold parseFollowups
  rw [hsn, List.filterMap_cons, List.filterMap_nil]
  simp only [hps, hsplit, pyStrip_space_cons text hstrip, List.isEmpty_cons,
    Bool.not_false, Bool.true_and, hnum, htne, if_pos]

/-- Claim C9 counterexample: the caller-side parser does not recover
`<text>` for arbitrary text containing `'.'` or `')'`.  On the line
`"1. See (a) and (b)"` the chained
`line.split('.', 1)[-1].split(')', 1)[-1]` cuts at the first `')'`
inside the text and yields `"and (b)"` instead of `"See (a) and (b)"`
(app.py line 106). -/
theorem claim_C9_cex :
    parseFollowups "1. See (a) and (b)".data ≠ ["See (a) and (b)".data] ∧
    parseFollowups "1. See (a) and (b)".data = ["and (b)".data] := by
  constructor
  · decide
  · decide

/-- Claim C9 (amended): for a follow-up line `"<n>. <text>"` or
`"<n>) <text>"` with `1 <= n <= 9` and non-empty, newline-free,
already-stripped `<text>`, the parser yields exactly `<text>` provided
`<text>` contains no `')'` in the `". "` style and no `'.'` in the
`") "` style. -/
theorem claim_C9 (n : Nat) (text : PyStr) (hn1 : 1 ≤ n) (hn2 : n ≤ 9)
    (hne : text ≠ []) (hstrip : pyStrip text = text) (hnl : '\n' ∉ text) :
    (')' ∉ text → parseFollowups (Nat.digitChar n :: '.' :: ' ' :: text) = [text]) ∧
    ('.' ∉ text → parseFollowups (Nat.digitChar n :: ')' :: ' ' :: text) = [text]) := by
  obtain ⟨hws, hnl_d, hdot_d, hpar_d⟩ := digitChar_facts n hn1 hn2
  constructor
  · intro hpar
    apply parse_numbered_line _ _ _ hws hnl_d (Or.inl rfl)
      (isNumberedLine_digit n hn1 hn2 '.' (Or.inl rfl) _) hne hstrip hnl
    have h1 : pySplit1Last '.' (Nat.digitChar n :: '.' :: ' ' :: text) = ' ' :: text := by
      unfold pySplit1Last
      rw [if_pos (by simp [hasChar]), List.dropWhile_cons, if_pos (by simp [hdot_d]),
        List.dropWhile_cons, if_neg (by simp)]
      rfl
    rw [h1]
    unfold pySplit1Last
    rw [if_neg ?hno]
    case hno =>
      simp only [Bool.not_eq_true]
      rw [Bool.eq_false_iff]
      intro hb
      rcases List.mem_cons.1 ((hasChar_iff _ _).1 hb) with he | hm
      · exact absurd he (by decide)
      · exact hpar hm
  · intro hdot
    apply parse_numbered_line _ _ _ hws hnl_d (Or.inr rfl)
      (isNumberedLine_digit n hn1 hn2 ')' (Or.inr rfl) _) hne hstrip hnl
    have h1 : pySplit1Last '.' (Nat.digitChar n :: ')' :: ' ' :: text) =
        Nat.digitChar n :: ')' :: ' ' :: text := by
      unfold pySplit1Last
      rw [if_neg ?hno2]
      case hno2 =>
        simp only [Bool.not_eq_true]
        rw [Bool.eq_false_iff]
        intro hb
        rcases List.mem_cons.1 ((hasChar_iff _ _).1 hb) with he | hm
        · exact hdot_d he.symm
        rcases List.mem_cons.1 hm with he | hm
        · exact absurd he (by decide)
        rcases List.mem_cons.1 hm with he | hm
        · exact absurd he (by decide)
        · exact hdot hm
    rw [h1]
    unfold pySplit1Last
    rw [if_pos (by simp [hasChar]), List.dropWhile_cons, if_pos (by simp [hpar_d]),
      List.dropWhile_cons, if_neg (by simp)]
    rfl

/-!
Helper lemmas about the embedding loop `buildAux`.
-/

theorem buildAux_append {V : Type} (zero : V) (start : Int)
    (l1 l2 : List (EmbedOutcome V)) :
    ∀ (k : Nat) (st : BuilderState V),
      buildAux zero start k (l1 ++ l2) st =
        buildAux zero start (k + l1.length) l2 (buildAux zero start k l1 st) := by
  induction l1 with
  | nil => intro k st; simp [buildAux]
  | cons o rest ih =>
    intro k st
    simp only [List.cons_append, List.length_cons, buildAux, List.append_eq]
    split
    · rw [ih, show k + 1 + rest.length = k + (rest.length + 1) from by omega]
    · rw [ih, show k + 1 + rest.length = k + (rest.length + 1) from by omega]

theorem buildAux_skip {V : Type} (zero : V) (start : Int) :
    ∀ (rest : List (EmbedOutcome V)) (k : Nat) (st : BuilderState V),
      ((k : Int) + rest.length ≤ start + 1) →
      buildAux zero start k rest st = st := by
  intro rest
  induction rest with
  | nil => intro k st h; rfl
  | cons o r ih =>
    intro k st h
    simp only [List.length_cons] at h
    have hk : (k : Int) ≤ start := by push_cast at h; omega
    simp only [buildAux, if_pos hk]
    apply ih
    push_cast at h ⊢
    omega

theorem buildAux_run {V : Type} (zero : V) (start : Int) :
    ∀ (rest : List (EmbedOutcome V)) (k : Nat) (st : BuilderState V),
      start < (k : Int) →
      (buildAux zero start k rest st).vectors =
          st.vectors ++ rest.map (chunkVector zero) ∧
      (buildAux zero start k rest st).processed =
          st.processed ++ List.range' k rest.length := by
  intro rest
  induction rest with
  | nil => intro k st h; simp [buildAux]
  | cons o r ih =>
    intro k st h
    have hk : ¬ (k : Int) ≤ start := by omega
    simp only [buildAux, if_neg hk, List.map_cons, List.length_cons, List.range'_succ]
    obtain ⟨hv, hp⟩ := ih (k + 1) (process_chunk zero st k o) (by push_cast; omega)
    constructor
    · rw [hv]
      simp [process_chunk, List.append_assoc]
    · rw [hp]
      simp [process_chunk, List.append_assoc]

theorem buildAux_invariant {V : Type} (zero : V) (start : Int) :
    ∀ (rest : List (EmbedOutcome V)) (k : Nat) (st : BuilderState V),
      ((st.vectors.length : Int) = max (start + 1) (k : Int)) →
      (∀ cp ∈ st.checkpoints, (cp.2 : Int) = cp.1 + 1) →
      ((buildAux zero start k rest st).vectors.length : Int) =
          max (start + 1) ((k + rest.length : Nat) : Int) ∧
      ∀ cp ∈ (buildAux zero start k rest st).checkpoints, (cp.2 : Int) = cp.1 + 1 := by
  intro rest
  induction rest with
  | nil =>
    intro k st hv hc
    constructor
    · simpa [buildAux] using hv
    · simpa [buildAux] using hc
  | cons o r ih =>
    intro k st hv hc
    simp only [buildAux, List.length_cons]
    by_cases hk : (k : Int) ≤ start
    · rw [if_pos hk]
      have hv2 : (st.vectors.length : Int) = max (start + 1) ((k + 1 : Nat) : Int) := by
        rw [hv, max_eq_left (by omega), max_eq_left (by push_cast; omega)]
      obtain ⟨h1, h2⟩ := ih (k + 1) st hv2 hc
      refine ⟨?_, h2⟩
      rwa [show (k + 1) + r.length = k + (r.length + 1) from by omega] at h1
    · rw [if_neg hk]
      have hst : start + 1 ≤ (k : Int) := by omega
      have hvk : (st.vectors.length : Int) = (k : Int) := by rw [hv, max_eq_right hst]
      have hv2 : ((process_chunk zero st k o).vectors.length : Int) =
          max (start + 1) ((k + 1 : Nat) : Int) := by
        have hL : (process_chunk zero st k o).vectors.length = st.vectors.length + 1 := by
          simp [process_chunk]
        rw [hL, max_eq_right (by push_cast; omega)]
        push_cast
        omega
      have hc2 : ∀ cp ∈ (process_chunk zero st k o).checkpoints,
          (cp.2 : Int) = cp.1 + 1 := by
        intro cp hcp
        simp only [process_chunk] at hcp
        by_cases h10 : ((k + 1) % 10 == 0) = true
        · rw [if_pos h10] at hcp
          rcases List.mem_append.1 hcp with hmem | hmem
          · exact hc cp hmem
          · rw [List.mem_singleton] at hmem
            subst hmem
            simp only [List.length_append, List.length_singleton]
            push_cast
            omega
        · rw [if_neg h10] at hcp
          exact hc cp hcp
      obtain ⟨h1, h2⟩ := ih (k + 1) (process_chunk zero st k o) hv2 hc2
      refine ⟨?_, h2⟩
      rwa [show (k + 1) + r.length = k + (r.length + 1) from by omega] at h1

/-- Claim C2: index alignment is an invariant of the embedding loop.
Starting from any resume state whose vector list is aligned with
`last_index` (`len(vectors) = start_index + 1`, which covers the fresh
start `(-1, [])`), every checkpoint persisted by the loop satisfies
`vectors_count = last_index + 1`, at completion the accumulated vector
list has exactly one vector per input chunk, and every processed
iteration appends exactly one vector. -/
theorem claim_C2 (start : Int) (init : List Vec) (docs : List (EmbedOutcome Vec))
    (hlen : (init.length : Int) = start + 1)
    (hle : start + 1 ≤ (docs.length : Int)) :
    (∀ cp ∈ (buildLoop zeroVec start init docs).checkpoints, (cp.2 : Int) = cp.1 + 1) ∧
    (buildLoop zeroVec start init docs).vectors.length = docs.length ∧
    ∀ (st : BuilderState Vec) (i : Nat) (o : EmbedOutcome Vec),
      (process_chunk zeroVec st i o).vectors.length = st.vectors.length + 1 := by
  have h0 : ((⟨init, [], []⟩ : BuilderState Vec).vectors.length : Int) =
      max (start + 1) ((0 : Nat) : Int) := by
    have hnn : (0 : Int) ≤ start + 1 := by omega
    simpa [max_eq_left hnn] using hlen
  obtain ⟨hv, hc⟩ := buildAux_invariant zeroVec start docs 0 ⟨init, [], []⟩ h0
    (by intro cp hcp; simp at hcp)
  refine ⟨hc, ?_, fun st i o => by simp [process_chunk]⟩
  have hmax : max (start + 1) ((0 + docs.length : Nat) : Int) = (docs.length : Int) := by
    rw [max_eq_right (by push_cast; omega)]
    push_cast
    ring
  rw [hmax] at hv
  exact_mod_cast hv

/-- Claim C2 witness: a concrete resumed run over eleven chunks. -/
theorem claim_C2_witness :
    (∀ cp ∈ (buildLoop zeroVec 2 [[1], [2], [3]]
        (List.replicate 11 (EmbedOutcome.ok ([4] : Vec)))).checkpoints,
      (cp.2 : Int) = cp.1 + 1) ∧
    (buildLoop zeroVec 2 [[1], [2], [3]]
        (List.replicate 11 (EmbedOutcome.ok ([4] : Vec)))).vectors.length =
      (List.replicate 11 (EmbedOutcome.ok ([4] : Vec))).length ∧
    ∀ (st : BuilderState Vec) (i : Nat) (o : EmbedOutcome Vec),
      (process_chunk zeroVec st i o).vectors.length = st.vectors.length + 1 :=
  claim_C2 2 [[1], [2], [3]] (List.replicate 11 (EmbedOutcome.ok ([4] : Vec)))
    (by decide) (by decide)

/-- Claim C1: resuming the builder from a checkpoint `(last_index = i,
vectors of length i + 1)` produces a final vector sequence of the same
length as the uninterrupted run, identical at every position after `i`,
and identical everywhere when the checkpointed vectors are the aligned
prefix the uninterrupted run would have produced; the resumed loop never
issues an embedding request for a chunk at or before `last_index`. -/
theorem claim_C1 (docs : List (EmbedOutcome Vec)) (i : Nat) (vs : List Vec)
    (hlen : vs.length = i + 1) (hi : i + 1 ≤ docs.length) :
    (buildLoop zeroVec (i : Int) vs docs).vectors.length =
      (buildLoop zeroVec (-1) [] docs).vectors.length ∧
    (∀ j, i < j →
      (buildLoop zeroVec (i : Int) vs docs).vectors[j]? =
        (buildLoop zeroVec (-1) [] docs).vectors[j]?) ∧
    (vs = (docs.take (i + 1)).map (chunkVector zeroVec) →
      (buildLoop zeroVec (i : Int) vs docs).vectors =
        (buildLoop zeroVec (-1) [] docs).vectors) ∧
    ∀ j ∈ (buildLoop zeroVec (i : Int) vs docs).processed, i < j := by
  have hfull : (buildLoop zeroVec (-1) [] docs).vectors =
      docs.map (chunkVector zeroVec) := by
    unfold buildLoop
    rw [(buildAux_run zeroVec (-1) docs 0 ⟨[], [], []⟩ (by norm_num)).1]
    rfl
  have htlen : (docs.take (i + 1)).length = i + 1 := by
    rw [List.length_take]
    omega
  have hskip : buildAux zeroVec (i : Int) 0 (docs.take (i + 1)) ⟨vs, [], []⟩ =
      ⟨vs, [], []⟩ :=
    buildAux_skip zeroVec (i : Int) (docs.take (i + 1)) 0 ⟨vs, [], []⟩
      (by rw [htlen]; push_cast; omega)
  have hres : buildLoop zeroVec (i : Int) vs docs =
      buildAux zeroVec (i : Int) (i + 1) (docs.drop (i + 1)) ⟨vs, [], []⟩ := by
    unfold buildLoop
    conv_lhs => rw [← List.take_append_drop (i + 1) docs]
    rw [buildAux_append, hskip, htlen, Nat.zero_add]
  obtain ⟨hrv, hrp⟩ := buildAux_run zeroVec (i : Int) (docs.drop (i + 1)) (i + 1)
    ⟨vs, [], []⟩ (by push_cast; omega)
  have hresv : (buildLoop zeroVec (i : Int) vs docs).vectors =
      vs ++ (docs.drop (i + 1)).map (chunkVector zeroVec) := by
    rw [hres]
    simpa using hrv
  have hresp : (buildLoop zeroVec (i : Int) vs docs).processed =
      List.range' (i + 1) (docs.drop (i + 1)).length := by
    rw [hres]
    simpa using hrp
  refine ⟨?_, ?_, ?_, ?_⟩
  · rw [hresv, hfull]
    simp only [List.length_append, List.length_map, List.length_drop]
    omega
  · intro j hj
    rw [hresv, hfull, List.getElem?_append_right (by rw [hlen]; omega),
      List.map_drop, List.getElem?_drop]
    rw [show i + 1 + (j - vs.length) = j from by rw [hlen]; omega]
  · intro hvs
    rw [hresv, hfull, hvs, List.map_take, List.map_drop, List.take_append_drop]
  · intro j hj
    rw [hresp] at hj
    rw [List.mem_range'] at hj
    obtain ⟨m, hm, he⟩ := hj
    omega

/-- Claim C1 witness: resuming a concrete three-chunk run from the
checkpoint `(last_index = 1, two aligned vectors)`. -/
theorem claim_C1_witness :
    (buildLoop zeroVec ((1 : Nat) : Int) [[5], zeroVec]
        [EmbedOutcome.ok [5], EmbedOutcome.otherError,
         EmbedOutcome.badRequestThenOk [7]]).vectors.length =
      (buildLoop zeroVec (-1) []
        [EmbedOutcome.ok [5], EmbedOutcome.otherError,
         EmbedOutcome.badRequestThenOk [7]]).vectors.length ∧
    (∀ j, 1 < j →
      (buildLoop zeroVec ((1 : Nat) : Int) [[5], zeroVec]
        [EmbedOutcome.ok [5], EmbedOutcome.otherError,
         EmbedOutcome.badRequestThenOk [7]]).vectors[j]? =
      (buildLoop zeroVec (-1) []
        [EmbedOutcome.ok [5], EmbedOutcome.otherError,
         EmbedOutcome.badRequestThenOk [7]]).vectors[j]?) ∧
    ([([5] : Vec), zeroVec] =
      (([EmbedOutcome.ok [5], EmbedOutcome.otherError,
         EmbedOutcome.badRequestThenOk [7]].take (1 + 1)).map
        (chunkVector zeroVec)) →
      (buildLoop zeroVec ((1 : Nat) : Int) [[5], zeroVec]
        [EmbedOutcome.ok [5], EmbedOutcome.otherError,
         EmbedOutcome.badRequestThenOk [7]]).vectors =
      (buildLoop zeroVec (-1) []
        [EmbedOutcome.ok [5], EmbedOutcome.otherError,
         EmbedOutcome.badRequestThenOk [7]]).vectors) ∧
    ∀ j ∈ (buildLoop zeroVec ((1 : Nat) : Int) [[5], zeroVec]
        [EmbedOutcome.ok [5], EmbedOutcome.otherError,
         EmbedOutcome.badRequestThenOk [7]]).processed, 1 < j :=
  claim_C1 [EmbedOutcome.ok [5], EmbedOutcome.otherError,
    EmbedOutcome.badRequestThenOk [7]] 1 [[5], zeroVec]
    (by simp) (by simp)

/-!
Helper lemmas about `pySplit` and `joinSpace`, used for the word-count
bound of the Answer Orchestrator.
-/

theorem takeWhile_append_stop {p : Char → Bool} (w : PyStr) (hw : ∀ c ∈ w, p c = true)
    {b : Char} (hb : p b = false) (s : PyStr) :
    (w ++ b :: s).takeWhile p = w := by
  induction w with
  | nil => simp [List.takeWhile_cons, hb]
  | cons c w2 ih =>
    have hc := hw c (List.mem_cons_self _ _)
    rw [List.cons_append, List.takeWhile_cons, if_pos hc,
      ih fun d hd => hw d (List.mem_cons_of_mem _ hd)]

theorem dropWhile_append_stop {p : Char → Bool} (w : PyStr) (hw : ∀ c ∈ w, p c = true)
    {b : Char} (hb : p b = false) (s : PyStr) :
    (w ++ b :: s).dropWhile p = b :: s := by
  induction w with
  | nil => simp [List.dropWhile_cons, hb]
  | cons c w2 ih =>
    have hc := hw c (List.mem_cons_self _ _)
    rw [List.cons_append, List.dropWhile_cons, if_pos hc,
      ih fun d hd => hw d (List.mem_cons_of_mem _ hd)]

theorem pySplit_single (l : PyStr) (hne : l ≠ [])
    (h : ∀ c ∈ l, c.isWhitespace = false) : pySplit l = [l] := by
  cases l with
  | nil => exact absurd rfl hne
  | cons c rest =>
    have hc := h c (List.mem_cons_self _ _)
    rw [pySplit, if_neg (by simp [hc])]
    have ht : rest.takeWhile (fun d => !d.isWhitespace) = rest :=
      List.takeWhile_eq_self_iff.2 fun d hd => by
        simp [h d (List.mem_cons_of_mem _ hd)]
    have hds : rest.dropWhile (fun d => !d.isWhitespace) = [] :=
      List.dropWhile_eq_nil_iff.2 fun d hd => by
        simp [h d (List.mem_cons_of_mem _ hd)]
    rw [ht, hds, pySplit]

theorem pySplit_word_cons (w : PyStr) (hne : w ≠ [])
    (h : ∀ c ∈ w, c.isWhitespace = false) (s : PyStr) :
    pySplit (w ++ ' ' :: s) = w :: pySplit s := by
  cases w with
  | nil => exact absurd rfl hne
  | cons c w2 =>
    have hc := h c (List.mem_cons_self _ _)
    rw [List.cons_append, pySplit, if_neg (by simp [hc])]
    have hq : ∀ d ∈ w2, (fun d => !d.isWhitespace) d = true := fun d hd => by
      simp [h d (List.mem_cons_of_mem _ hd)]
    have hsp : (fun d => !d.isWhitespace) ' ' = false := by decide
    rw [takeWhile_append_stop w2 hq hsp, dropWhile_append_stop w2 hq hsp]
    rw [pySplit, if_pos (by decide)]

theorem pySplit_mem : ∀ (l : PyStr), ∀ w ∈ pySplit l,
    w ≠ [] ∧ ∀ c ∈ w, c.isWhitespace = false := by
  have H : ∀ (n : Nat) (l : PyStr), l.length ≤ n → ∀ w ∈ pySplit l,
      w ≠ [] ∧ ∀ c ∈ w, c.isWhitespace = false := by
    intro n
    induction n with
    | zero =>
      intro l hl w hw
      rw [Nat.le_zero, List.length_eq_zero] at hl
      subst hl
      simp [pySplit] at hw
    | succ n ih =>
      intro l hl w hw
      cases l with
      | nil => simp [pySplit] at hw
      | cons c rest =>
        simp only [List.length_cons] at hl
        by_cases hc : c.isWhitespace = true
        · rw [pySplit, if_pos hc] at hw
          exact ih rest (by omega) w hw
        · rw [pySplit, if_neg hc] at hw
          rcases List.mem_cons.1 hw with he | hm
          · subst he
            refine ⟨by simp, ?_⟩
            intro d hd
            rcases List.mem_cons.1 hd with he | hm2
            · subst he
              exact Bool.not_eq_true _ ▸ hc
            · have := List.mem_takeWhile_imp hm2
              simpa using this
          · have hdlen :
                (rest.dropWhile fun d => !d.isWhitespace).length ≤ rest.length :=
              (List.dropWhile_suffix _).sublist.length_le
            exact ih _ (by omega) w hm
  exact fun l => H l.length l (le_refl _)

theorem pySplit_joinSpace (ws : List PyStr) (hne : ws ≠ [])
    (hok : ∀ w ∈ ws, w ≠ [] ∧ ∀ c ∈ w, c.isWhitespace = false) :
    pySplit (joinSpace ws) = ws := by
  induction ws with
  | nil => exact absurd rfl hne
  | cons w ws2 ih =>
    obtain ⟨hwne, hwws⟩ := hok w (List.mem_cons_self _ _)
    cases ws2 with
    | nil =>
      rw [joinSpace]
      exact pySplit_single w hwne hwws
    | cons x ws3 =>
      rw [joinSpace, pySplit_word_cons w hwne hwws,
        ih (by simp) fun v hv => hok v (List.mem_cons_of_mem _ hv)]

theorem pySplit_join_append_length (tail : PyStr)
    (htail : ∀ c ∈ tail, c.isWhitespace = false) :
    ∀ (ws : List PyStr), ws ≠ [] →
      (∀ w ∈ ws, w ≠ [] ∧ ∀ c ∈ w, c.isWhitespace = false) →
      (pySplit (joinSpace ws ++ tail)).length = ws.length := by
  intro ws
  induction ws with
  | nil => intro h; exact absurd rfl h
  | cons w ws2 ih =>
    intro _ hok
    obtain ⟨hwne, hwws⟩ := hok w (List.mem_cons_self _ _)
    cases ws2 with
    | nil =>
      rw [joinSpace, pySplit_single (w ++ tail) (by simp [hwne]) ?hall]
      case hall =>
        intro c hc
        rcases List.mem_append.1 hc with hm | hm
        · exact hwws c hm
        · exact htail c hm
      rfl
    | cons x ws3 =>
      rw [joinSpace, List.append_assoc, List.cons_append,
        pySplit_word_cons w hwne hwws, List.length_cons, List.length_cons,
        ih (by simp) fun v hv => hok v (List.mem_cons_of_mem _ hv)]

/-- Claim C4: with a generation stub that always answers with more than
200 whitespace-split words, `GPTClient.ask` with `max_retries = 2`
performs the conversational retry — appending the prior over-long answer
and the word-count instruction to the message history — and finally
returns the first 200 words of the last answer followed by the explicit
truncation marker `"..."`; the returned text holds at most 200
whitespace-split words. -/
theorem claim_C4 (f : List Msg → PyStr) (rules query : PyStr)
    (hlong : ∀ msgs, 200 < (pySplit (pyStrip (f msgs))).length) :
    ask (fun msgs => Except.ok (f msgs)) rules query 2 =
      joinSpace ((pySplit (pyStrip (f
        ([{ role := "system".data, content := rules },
           { role := "user".data, content := query }] ++
         [{ role := "assistant".data, content :=
              pyStrip (f [{ role := "system".data, content := rules },
                          { role := "user".data, content := query }]) },
          { role := "user".data, content :=
              retryInstruction (pySplit (pyStrip
                (f [{ role := "system".data, content := rules },
                    { role := "user".data, content := query }]))).length }])))).take 200)
        ++ "...".data ∧
    (pySplit (ask (fun msgs => Except.ok (f msgs)) rules query 2)).length ≤ 200 := by
  set m0 : List Msg := [{ role := "system".data, content := rules },
    { role := "user".data, content := query }] with hm0
  set t1 : PyStr := pyStrip (f m0) with ht1
  set m1 : List Msg := m0 ++ [{ role := "assistant".data, content := t1 },
    { role := "user".data, content := retryInstruction (pySplit t1).length }] with hm1
  set t2 : PyStr := pyStrip (f m1) with ht2
  have hmain : ask (fun msgs => Except.ok (f msgs)) rules query 2 =
      joinSpace ((pySplit t2).take 200) ++ "...".data := by
    show askAux (fun msgs => Except.ok (f msgs)) 2 (1 + 1) 1 m0 =
      joinSpace ((pySplit t2).take 200) ++ "...".data
    rw [askAux]
    simp only
    rw [if_pos (show 200 < (pySplit t1).length from hlong m0),
      if_pos (show (1 : Nat) < 2 by omega)]
    show askAux (fun msgs => Except.ok (f msgs)) 2 (0 + 1) 2 m1 = _
    rw [askAux]
    simp only
    rw [if_pos (show 200 < (pySplit t2).length from hlong m1),
      if_neg (show ¬ (2 : Nat) < 2 by omega)]
  refine ⟨hmain, ?_⟩
  rw [hmain]
  have htake200 : ((pySplit t2).take 200).length = 200 := by
    rw [List.length_take]
    have := hlong m1
    rw [← ht2] at this
    omega
  rw [pySplit_join_append_length "...".data (by decide)
    ((pySplit t2).take 200) ?tne ?tok, htake200]
  case tne =>
    intro hempty
    have := congrArg List.length hempty
    rw [htake200] at this
    simp at this
  case tok =>
    intro w hw
    exact pySplit_mem t2 w (List.mem_of_mem_take hw)

/-- Claim C4 witness: the concrete stub that always answers with 251
one-letter words is truncated to its first 200 words plus the marker. -/
theorem claim_C4_witness :
    ask (fun _ => Except.ok (joinSpace (List.replicate 251 ['a']))) [] [] 2 =
      joinSpace ((pySplit (pyStrip (joinSpace (List.replicate 251 ['a'])))).take 200)
        ++ "...".data ∧
    (pySplit (ask (fun _ => Except.ok (joinSpace (List.replicate 251 ['a'])))
      [] [] 2)).length ≤ 200 :=
  claim_C4 (fun _ => joinSpace (List.replicate 251 ['a'])) [] []
    (fun _ => show 200 < (pySplit (pyStrip
      (joinSpace (List.replicate 251 ['a'])))).length from by
        have hstrip : pyStrip (joinSpace (List.replicate 251 ['a'])) =
            joinSpace (List.replicate 251 ['a']) := by decide
        rw [hstrip, pySplit_joinSpace _ (by simp) ?hok]
        case hok =>
          intro w hw
          rw [List.eq_of_mem_replicate hw]
          exact ⟨by decide, by decide⟩
        simp)

/-!
Helper lemmas about substring occurrence (`containsSub`), used for the
fusion-prompt heading claim.
-/

theorem tokenAt_iff (n : PyStr) : ∀ l, tokenAt n l = true ↔ ∃ r, l = n ++ r := by
  induction n with
  | nil => intro l; simp [tokenAt]
  | cons a as ih =>
    intro l
    cases l with
    | nil => simp [tokenAt]
    | cons b bs =>
      simp only [tokenAt, Bool.and_eq_true, beq_iff_eq, ih, List.cons_append,
        List.cons.injEq]
      constructor
      · rintro ⟨hab, r, hr⟩
        exact ⟨r, hab.symm, hr⟩
      · rintro ⟨r, hba, hr⟩
        exact ⟨hba.symm, r, hr⟩

theorem containsSub_iff (n : PyStr) : ∀ l, containsSub n l = true ↔
    ∃ p r, l = p ++ n ++ r := by
  intro l
  induction l with
  | nil =>
    simp only [containsSub, List.isEmpty_iff]
    constructor
    · intro h
      exact ⟨[], [], by simp [h]⟩
    · rintro ⟨p, r, hr⟩
      rcases List.append_eq_nil.1 (List.append_eq_nil.1 hr.symm).1 with ⟨_, hn⟩
      exact hn
  | cons c rest ih =>
    simp only [containsSub, Bool.or_eq_true, tokenAt_iff, ih]
    constructor
    · rintro (⟨r, hr⟩ | ⟨p, r, hr⟩)
      · exact ⟨[], r, by simpa using hr⟩
      · exact ⟨c :: p, r, by simp [hr]⟩
    · rintro ⟨p, r, hr⟩
      cases p with
      | nil => exact Or.inl ⟨r, by simpa using hr⟩
      | cons x p2 =>
        rw [List.cons_append, List.cons_append] at hr
        injection hr with h1 h2
        exact Or.inr ⟨p2, r, by simpa [List.append_assoc] using h2⟩

theorem containsSub_append_split (n a b : PyStr)
    (h : containsSub n (a ++ b) = true) :
    containsSub n a = true ∨ containsSub n b = true ∨
      ∃ n1 n2, n = n1 ++ n2 ∧ n1 ≠ [] ∧ n2 ≠ [] ∧
        (∃ x, a = x ++ n1) ∧ ∃ y, b = n2 ++ y := by
  obtain ⟨p, r, hr⟩ := (containsSub_iff _ _).1 h
  rw [List.append_assoc] at hr
  rcases List.append_eq_append_iff.1 hr with ⟨w, hw1, hw2⟩ | ⟨w, hw1, hw2⟩
  · exact Or.inr (Or.inl ((containsSub_iff _ _).2
      ⟨w, r, by rw [hw2, List.append_assoc]⟩))
  · rcases List.append_eq_append_iff.1 hw2 with ⟨u, hu1, hu2⟩ | ⟨u, hu1, hu2⟩
    · exact Or.inl ((containsSub_iff _ _).2
        ⟨p, u, by rw [hw1, hu1, List.append_assoc]⟩)
    · cases w with
      | nil =>
        rw [List.nil_append] at hu1
        subst hu1
        exact Or.inr (Or.inl ((containsSub_iff _ _).2 ⟨[], r, by simp [hu2]⟩))
      | cons w0 wr =>
        cases u with
        | nil =>
          rw [List.append_nil] at hu1
          exact Or.inl ((containsSub_iff _ _).2 ⟨p, [], by simp [hw1, hu1]⟩)
        | cons u0 ur =>
          exact Or.inr (Or.inr ⟨w0 :: wr, u0 :: ur, hu1, List.cons_ne_nil _ _,
            List.cons_ne_nil _ _, ⟨p, hw1⟩, ⟨r, hu2⟩⟩)

theorem getLast?_of_ne_nil (l : PyStr) (h : l ≠ []) :
    ∃ c, l.getLast? = some c := by
  induction l with
  | nil => exact absurd rfl h
  | cons a l2 ih =>
    cases l2 with
    | nil => exact ⟨a, rfl⟩
    | cons b l3 =>
      obtain ⟨c, hc⟩ := ih (List.cons_ne_nil _ _)
      exact ⟨c, by rwa [List.getLast?_cons_cons]⟩

theorem mem_of_getLast?_eq {l : PyStr} {c : Char} (h : l.getLast? = some c) :
    c ∈ l := by
  induction l with
  | nil => simp at h
  | cons a l2 ih =>
    cases l2 with
    | nil =>
      simp only [List.getLast?_singleton, Option.some_inj] at h
      simp [h]
    | cons b l3 =>
      rw [List.getLast?_cons_cons] at h
      exact List.mem_cons_of_mem _ (ih h)

theorem span_first_char {n n1 n2 b y : PyStr} {ch : Char}
    (hn : n = n1 ++ n2) (hn2 : n2 ≠ []) (hb : b = n2 ++ y)
    (hhd : b.head? = some ch) (hch : ch ∉ n) : False := by
  cases n2 with
  | nil => exact hn2 rfl
  | cons c t =>
    rw [hb, List.cons_append, List.head?_cons, Option.some_inj] at hhd
    apply hch
    rw [hn, ← hhd]
    exact List.mem_append_right _ (List.mem_cons_self _ _)

theorem span_last_char {n n1 n2 a x : PyStr} {ch : Char}
    (hn : n = n1 ++ n2) (hn1 : n1 ≠ []) (ha : a = x ++ n1)
    (hlast : a.getLast? = some ch) (hch : ch ∉ n) : False := by
  obtain ⟨c, hc⟩ := getLast?_of_ne_nil n1 hn1
  have hac : a.getLast? = some c := by
    rw [ha, List.getLast?_append, hc]
    rfl
  rw [hlast, Option.some_inj] at hac
  apply hch
  rw [hn, hac]
  exact List.mem_append_left _ (mem_of_getLast?_eq hc)

theorem span_head_of_needle {n n1 n2 a x : PyStr} {ch : Char}
    (hn : n = n1 ++ n2) (hn1 : n1 ≠ []) (ha : a = x ++ n1)
    (hhd : n.head? = some ch) (hch : ch ∉ a) : False := by
  cases n1 with
  | nil => exact hn1 rfl
  | cons c t =>
    rw [hn, List.cons_append, List.head?_cons, Option.some_inj] at hhd
    apply hch
    rw [ha, ← hhd]
    exact List.mem_append_right _ (List.mem_cons_self _ _)

/-- Any string containing the secondary-context heading as a substring
also contains `"binning"`, so `is_binning_question` classifies it as a
binning question via the strong-keyword substring check. -/
theorem binning_of_heading (q : PyStr) (h : containsSub ragHeading q = true) :
    is_binning_question q = true := by
  obtain ⟨p, r, hq⟩ := (containsSub_iff _ _).1 h
  obtain ⟨p2, r2, hb⟩ :=
    (containsSub_iff "binning".data (lowerStr ragHeading)).1 (by decide)
  have hlq : lowerStr q =
      (lowerStr p ++ p2) ++ "binning".data ++ (r2 ++ lowerStr r) := by
    rw [hq]
    simp only [lowerStr, List.map_append]
    rw [show List.map Char.toLower ragHeading = p2 ++ "binning".data ++ r2 from hb]
    simp [List.append_assoc]
  have hc : containsSub "binning".data (lowerStr q) = true :=
    (containsSub_iff _ _).2 ⟨lowerStr p ++ p2, r2 ++ lowerStr r, hlq⟩
  have hany : (strongKeywords.any fun w => containsSub w (lowerStr q)) = true :=
    List.any_eq_true.2 ⟨"binning".data, by decide, hc⟩
  simp [is_binning_question, hany]

/-- Claim C7: for a query routed as non-binning, `fused_reasoning`
computes an empty secondary (RAG) context and the assembled prompt never
contains the secondary-context heading `"Relevant Binning Research
(RAG):"` — the block is omitted entirely, provided the retrieved primary
context itself does not contain the heading verbatim (no hypothesis on
the query is needed: a query containing the heading would contain
`"binning"` and be routed as binning). -/
theorem claim_C7 (question sct_text : PyStr) (chunkTexts : List PyStr)
    (hroute : is_binning_question question = false)
    (hsct : containsSub ragHeading sct_text = false) :
    ragTextFor question chunkTexts = [] ∧
    containsSub ragHeading (fusedPrompt sct_text question chunkTexts) = false := by
  have hrag : ragTextFor question chunkTexts = [] := by
    unfold ragTextFor
    rw [if_neg (by simp [hroute])]
  refine ⟨hrag, ?_⟩
  have hP : fusedPrompt sct_text question chunkTexts =
      promptPartA ++ (sct_text ++ ((promptPartB ++ promptPartC) ++
        (question ++ promptPartD))) := by
    simp only [fusedPrompt, hrag, List.isEmpty_nil, if_true]
    simp [List.append_assoc]
  rw [hP]
  by_contra hb
  rw [Bool.not_eq_false] at hb
  rcases containsSub_append_split _ _ _ hb with
    hA | hrest1 | ⟨n1, n2, hn, hn1, hn2, ⟨x, hx⟩, ⟨y, hy⟩⟩
  · exact absurd hA (by decide)
  · rcases containsSub_append_split _ _ _ hrest1 with
      hs | hrest2 | ⟨n1, n2, hn, hn1, hn2, ⟨x, hx⟩, ⟨y, hy⟩⟩
    · exact absurd hs (by simp [hsct])
    · rcases containsSub_append_split _ _ _ hrest2 with
        hM | hrest3 | ⟨n1, n2, hn, hn1, hn2, ⟨x, hx⟩, ⟨y, hy⟩⟩
      · exact absurd hM (by decide)
      · rcases containsSub_append_split _ _ _ hrest3 with
          hq | hD | ⟨n1, n2, hn, hn1, hn2, ⟨x, hx⟩, ⟨y, hy⟩⟩
        · exact absurd (binning_of_heading question hq) (by simp [hroute])
        · exact absurd hD (by decide)
        · exact span_first_char hn hn2 hy
            (show promptPartD.head? = some '\n' from by decide)
            (show ('\n' : Char) ∉ ragHeading from by decide)
      · exact span_head_of_needle hn hn1 hx
          (show ragHeading.head? = some 'R' from by decide)
          (show ('R' : Char) ∉ promptPartB ++ promptPartC from by decide)
    · refine span_first_char hn hn2 hy ?_
        (show ('\n' : Char) ∉ ragHeading from by decide)
      rw [List.head?_append,
        show (promptPartB ++ promptPartC).head? = some '\n' from by decide]
      rfl
  · exact span_last_char hn hn1 hx
      (show promptPartA.getLast? = some '\n' from by decide)
      (show ('\n' : Char) ∉ ragHeading from by decide)

/-- Claim C7 witness: a concrete non-binning query with a concrete
retrieved primary context. -/
theorem claim_C7_witness :
    ragTextFor "What are the specifications for temperature?".data
      ["r1".data] = [] ∧
    containsSub ragHeading
      (fusedPrompt "[GOX]\nGate oxide context".data
        "What are the specifications for temperature?".data
        ["r1".data]) = false :=
  claim_C7 "What are the specifications for temperature?".data
    "[GOX]\nGate oxide context".data ["r1".data] (by decide) (by decide)

/-- Claim C9 witness: both delimiter styles recover a concrete text that
contains neither `'.'` nor `')'`. -/
theorem claim_C9_witness :
    parseFollowups (Nat.digitChar 1 :: '.' :: ' ' :: "What is GOX?".data) =
      ["What is GOX?".data] ∧
    parseFollowups (Nat.digitChar 1 :: ')' :: ' ' :: "What is GOX?".data) =
      ["What is GOX?".data] := by
  have h := claim_C9 1 "What is GOX?".data (by decide) (by decide) (by decide)
    (by decide) (by decide)
  exact ⟨h.1 (by decide), h.2 (by decide)⟩

end SctFusion
